import Mathlib

/-!
Shallow embedding of the WatchVIM mobile OTT client core (src/app.js):
catalog normalization, watch-progress store, playback resolution and the
LIVE loop scheduler. JavaScript numbers are modelled as rationals
(all numeric inputs reaching this core are finite), JavaScript strings as
Lean strings, absent object fields as Option, and the entity Map as an
insertion-ordered association list with Map.set update semantics.
Randomness (Math.random) is modelled by explicit choice parameters: a
function giving, for each loop position i of the Fisher-Yates shuffle, the
already-floored draw in 0..i, and an index choice for ad selection.
-/

/-- Decimal digit character for a value 0..9, as produced by JavaScript
number-to-string conversion of a single digit. The final catch-all arm is
unreachable at call sites (arguments are always below 10). -/
def digitChar : Nat → Char
  | 0 => '0'
  | 1 => '1'
  | 2 => '2'
  | 3 => '3'
  | 4 => '4'
  | 5 => '5'
  | 6 => '6'
  | 7 => '7'
  | 8 => '8'
  | _ => '9'

/-- Fuel-driven base-10 digit expansion, most significant digit first. -/
def natDigitsAux : Nat → Nat → List Char
  | 0, _ => []
  | f + 1, n => if n < 10 then [digitChar n] else natDigitsAux f (n / 10) ++ [digitChar (n % 10)]

/-- Base-10 digits of a natural number, as JavaScript template literals
render nonnegative integers. The fuel n+1 is always sufficient. -/
def natDigits (n : Nat) : List Char := natDigitsAux (n + 1) n

/-- Decimal rendering of a natural number as a string. -/
def natStr (n : Nat) : String := String.mk (natDigits n)

/-- Value of a digit string, used only to invert natDigits in proofs. -/
def digitsVal (l : List Char) : Nat := l.foldl (fun acc c => 10 * acc + (c.toNat - 48)) 0

/-- JavaScript string-field fallback a || b: an absent or empty string
falls through to the default. -/
def orStr (a : Option String) (b : String) : String :=
  match a with
  | none => b
  | some s => if s = "" then b else s

/-- JavaScript falsiness of an optional string field: absent or empty. -/
def isFalsyStr (a : Option String) : Bool :=
  match a with
  | none => true
  | some s => s = ""

/-- Poster and hero image url variants of a title (appImages in app.js). -/
structure AppImages where
  tvPosterUrl : Option String
  mobilePosterUrl : Option String
  deriving DecidableEq

/-- An episode object of the catalog document. The fields seriesId,
seasonIndex and epIndex model the __seriesId, __seasonIndex and __epIndex
back-references that normalizeCatalog attaches in place. -/
structure Episode where
  id : Option String
  title : Option String
  thumbnailUrl : Option String
  contentPlaybackId : Option String
  trailerPlaybackId : Option String
  seriesId : Option String
  seasonIndex : Option Nat
  epIndex : Option Nat
  deriving DecidableEq

/-- A season of a series title. -/
structure Season where
  seasonNumber : Option Nat
  episodes : List Episode
  deriving DecidableEq

/-- A title object of the catalog document. Fields that no claim touches
(synopsis, monetization, genre, ...) are omitted. -/
structure Title where
  id : String
  type : String
  title : Option String
  posterUrl : Option String
  appImages : Option AppImages
  contentPlaybackId : Option String
  trailerPlaybackId : Option String
  seasons : List Season
  deriving DecidableEq

/-- A rotation reference of the loopChannel configuration. -/
structure RotRef where
  refType : String
  refId : String
  label : Option String
  deriving DecidableEq

/-- A sponsored ad definition of the loopChannel configuration. -/
structure AdDef where
  name : Option String
  durationSec : Option ℚ
  muxAdPlaybackId : Option String
  mediaUrl : Option String
  clickUrl : Option String
  deriving DecidableEq

/-- The loopChannel section of the catalog document. Entries of
rotationItems may be null, hence the inner Option. -/
structure LoopChannel where
  rotationItems : Option (List (Option RotRef))
  sponsoredAds : Option (List AdDef)
  adFrequencyMins : Option ℚ
  shuffle : Bool
  deriving DecidableEq

/-- A catalog document: titles may appear under titles or publishedTitles. -/
structure Catalog where
  titles : Option (List Title)
  publishedTitles : Option (List Title)
  loopChannel : Option LoopChannel
  deriving DecidableEq

/-- An entry of the entity index: a Title or an Episode. -/
inductive Entity where
  | title (t : Title)
  | episode (e : Episode)
  deriving DecidableEq

/-- The entity index byId: a JavaScript Map modelled as an association
list in insertion order. -/
abbrev EntityIndex := List (String × Entity)

/-- Map.set semantics: update in place when the key exists, else append. -/
def mapSet (m : EntityIndex) (k : String) (v : Entity) : EntityIndex :=
  if m.any (fun p => p.1 == k) then m.map (fun p => if p.1 == k then (k, v) else p)
  else m ++ [(k, v)]

/-- Map.get semantics: the value stored at the key, if any. -/
def mapGet (m : EntityIndex) (k : String) : Option Entity :=
  (m.find? (fun p => p.1 == k)).map (fun p => p.2)

/-- The derived episode id as a character list:
titleId followed by _s, the 1-based season number, e, and the 1-based
episode number. -/
def derivedIdL (tid : List Char) (si ei : Nat) : List Char :=
  tid ++ ('_' :: 's' :: (natDigits (si + 1) ++ ('e' :: natDigits (ei + 1))))

/-- The derived episode id string assigned by normalizeCatalog when an
episode lacks an id. -/
def derivedId (tid : String) (si ei : Nat) : String :=
  String.mk (derivedIdL tid.data si ei)

/-- Normalization of one episode at season index si and episode index ei
of the series tid: assign the derived id when the own id is falsy, and
attach the three back-references. -/
def normEpisode (tid : String) (si ei : Nat) (ep : Episode) : Episode :=
  { ep with
    id := if isFalsyStr ep.id then some (derivedId tid si ei) else ep.id
    seriesId := some tid
    seasonIndex := some si
    epIndex := some ei }

/-- Normalization of an episode list starting at episode index ei. -/
def normEpisodes (tid : String) (si : Nat) : Nat → List Episode → List Episode
  | _, [] => []
  | ei, ep :: rest => normEpisode tid si ei ep :: normEpisodes tid si (ei + 1) rest

/-- Normalization of a season list starting at season index si. -/
def normSeasons (tid : String) : Nat → List Season → List Season
  | _, [] => []
  | si, s :: rest =>
    { s with episodes := normEpisodes tid si 0 s.episodes } :: normSeasons tid (si + 1) rest

/-- Normalization of one title: only series titles are rewritten. -/
def normTitle (t : Title) : Title :=
  if t.type = "series" then { t with seasons := normSeasons t.id 0 t.seasons } else t

/-- The titles array selected by normalizeCatalog:
catalog.titles || catalog.publishedTitles || []. An array is truthy even
when empty, so only an absent field falls through. -/
def selTitles (c : Catalog) : List Title :=
  match c.titles with
  | some ts => ts
  | none => c.publishedTitles.getD []

/-- The key under which a normalized episode is inserted into the index. -/
def epKey (ep : Episode) : String := ep.id.getD ""

/-- Index insertion of the episodes of one season list. -/
def insertEpisodes (m : EntityIndex) (eps : List Episode) : EntityIndex :=
  eps.foldl (fun m ep => mapSet m (epKey ep) (Entity.episode ep)) m

/-- Index insertion over all seasons of a series. -/
def insertSeasons (m : EntityIndex) (ss : List Season) : EntityIndex :=
  ss.foldl (fun m s => insertEpisodes m s.episodes) m

/-- Index insertion of one normalized title: the title under its id, then,
for series, every episode under its id in document order. -/
def insertTitle (m : EntityIndex) (t : Title) : EntityIndex :=
  let m1 := mapSet m t.id (Entity.title t)
  if t.type = "series" then insertSeasons m1 t.seasons else m1

/-- normalizeCatalog of app.js: the selected titles, mutated in place by
episode normalization, paired with the byId index. The returned titles are
the normalized ones, matching the in-place mutation of the source. -/
def normalizeCatalog (c : Catalog) : List Title × EntityIndex :=
  let ts := (selTitles c).map normTitle
  (ts, ts.foldl insertTitle [])

/-- The catalog document after normalizeCatalog ran once: the selected
titles array has been mutated in place, everything else is unchanged. -/
def afterNorm (c : Catalog) : Catalog :=
  match c.titles with
  | some _ => { c with titles := some ((selTitles c).map normTitle) }
  | none =>
    match c.publishedTitles with
    | some _ => { c with publishedTitles := some ((selTitles c).map normTitle) }
    | none => c

/-- Derived ids assigned inside one episode list, starting at index ei. -/
def derivedIdsEps (tid : String) (si : Nat) : Nat → List Episode → List String
  | _, [] => []
  | ei, ep :: rest =>
    (if isFalsyStr ep.id then [derivedId tid si ei] else []) ++ derivedIdsEps tid si (ei + 1) rest

/-- Derived ids assigned inside a season list, starting at index si. -/
def derivedIdsSeasons (tid : String) : Nat → List Season → List String
  | _, [] => []
  | si, s :: rest => derivedIdsEps tid si 0 s.episodes ++ derivedIdsSeasons tid (si + 1) rest

/-- Derived ids assigned while normalizing one title. -/
def derivedIdsTitle (t : Title) : List String :=
  if t.type = "series" then derivedIdsSeasons t.id 0 t.seasons else []

/-- All derived episode ids assigned while normalizing a catalog. -/
def derivedIds (c : Catalog) : List String :=
  (selTitles c).flatMap derivedIdsTitle

/-- Keys inserted into the index for the episodes of one episode list. -/
def epKeysList (tid : String) (si : Nat) : Nat → List Episode → List String
  | _, [] => []
  | ei, ep :: rest =>
    (if isFalsyStr ep.id then derivedId tid si ei else ep.id.getD "") ::
      epKeysList tid si (ei + 1) rest

/-- The key-value pairs inserted into the index for one normalized title,
in insertion order. -/
def titleInsertions (t : Title) : List (String × Entity) :=
  (t.id, Entity.title t) ::
    (if t.type = "series" then
      t.seasons.flatMap (fun s => s.episodes.map (fun ep => (epKey ep, Entity.episode ep)))
    else [])

/-- All key-value pairs inserted into the index while normalizing a
catalog, in insertion order. -/
def insertionsOf (c : Catalog) : List (String × Entity) :=
  ((selTitles c).map normTitle).flatMap titleInsertions

/-- All keys inserted into the index while normalizing a catalog. -/
def keysOf (c : Catalog) : List String :=
  (insertionsOf c).map Prod.fst

/-- The poster helper of app.js restricted to title fields:
posterUrl || appImages.tvPosterUrl || appImages.mobilePosterUrl || "". -/
def poster (t : Title) : String :=
  orStr t.posterUrl (orStr (t.appImages.bind AppImages.tvPosterUrl)
    (orStr (t.appImages.bind AppImages.mobilePosterUrl) ""))

/-- Duck-typed field read obj.title on an index entry. -/
def Entity.titleField : Entity → Option String
  | Entity.title t => t.title
  | Entity.episode e => e.title

/-- Duck-typed field read obj.contentPlaybackId on an index entry. -/
def Entity.contentPb : Entity → Option String
  | Entity.title t => t.contentPlaybackId
  | Entity.episode e => e.contentPlaybackId

/-- Duck-typed field read obj.trailerPlaybackId on an index entry. -/
def Entity.trailerPb : Entity → Option String
  | Entity.title t => t.trailerPlaybackId
  | Entity.episode e => e.trailerPlaybackId

/-- Duck-typed field read obj.__seriesId: only episodes carry it. -/
def Entity.seriesIdOf : Entity → Option String
  | Entity.title _ => none
  | Entity.episode e => e.seriesId

/-- Duck-typed field read obj.__seasonIndex: only episodes carry it. -/
def Entity.seasonIdxOf : Entity → Option Nat
  | Entity.title _ => none
  | Entity.episode e => e.seasonIndex

/-- Duck-typed field read obj.__epIndex: only episodes carry it. -/
def Entity.epIdxOf : Entity → Option Nat
  | Entity.title _ => none
  | Entity.episode e => e.epIndex

/-- Duck-typed field read obj.thumbnailUrl: only episodes carry it. -/
def Entity.thumbOf : Entity → Option String
  | Entity.title _ => none
  | Entity.episode e => e.thumbnailUrl

/-- Duck-typed field read obj.posterUrl: only titles carry it. -/
def Entity.posterUrlField : Entity → Option String
  | Entity.title t => t.posterUrl
  | Entity.episode _ => none

/-- The poster helper applied to an index entry, as resolveLoopItem does
for title references. Episode objects carry none of the poster fields. -/
def posterE : Entity → String
  | Entity.title t => poster t
  | Entity.episode _ => ""

/-- muxIdFor of app.js: trailer intent selects the trailer playback id,
any other intent selects the content playback id. Callers omitting the
argument pass the default "content". -/
def muxIdFor (t : Entity) (kind : String) : Option String :=
  if kind = "trailer" then t.trailerPb else t.contentPb

/-- A watch-progress record of the persisted log (schema v2). -/
structure WRec where
  refType : String
  refId : String
  routeHash : String
  progressSec : ℚ
  durationSec : ℚ
  ratio : ℚ
  updatedAt : ℚ
  deriving DecidableEq

/-- upsertWatchItem of app.js: drop every record of the same
(refType, refId) pair, push the new record with a fresh updatedAt at the
head, and persist the first 30 entries. The now argument stands for
Date.now(). -/
def upsertWatchItem (store : List WRec) (item : WRec) (now : ℚ) : List WRec :=
  let items := store.filter (fun x => !(x.refId == item.refId && x.refType == item.refType))
  ({ item with updatedAt := now } :: items).take 30

/-- recordProgress of app.js: ignore the call when refId is falsy or
durationSec is not positive; otherwise store ratio computed from the raw
arguments together with progressSec clamped to at least 0 and durationSec
clamped to at least 1. -/
def recordProgress (store : List WRec) (refType refId routeHash : String)
    (progressSec durationSec now : ℚ) : List WRec :=
  if refId = "" ∨ durationSec = 0 ∨ durationSec ≤ 0 then store
  else
    upsertWatchItem store
      { refType := refType, refId := refId, routeHash := routeHash
        progressSec := max 0 progressSec
        durationSec := max 1 durationSec
        ratio := progressSec / durationSec
        updatedAt := 0 } now

/-- One call to recordProgress, with the Date.now() value it observes. -/
structure RCall where
  refType : String
  refId : String
  routeHash : String
  progressSec : ℚ
  durationSec : ℚ
  now : ℚ
  deriving DecidableEq

/-- A sequence of recordProgress calls applied to a store. -/
def runCalls (store : List WRec) : List RCall → List WRec
  | [] => store
  | c :: rest =>
    runCalls (recordProgress store c.refType c.refId c.routeHash c.progressSec c.durationSec c.now)
      rest

/-- continueWatchingItems of app.js: keep records with ratio below 0.92,
order by updatedAt descending (stable sort, as Array.prototype.sort), join
each against the entity index and drop records whose entity is gone. -/
def continueWatchingItems (store : List WRec) (byId : EntityIndex) : List (WRec × Entity) :=
  let items := (store.filter (fun x => x.ratio < 92 / 100)).mergeSort
    (fun a b => b.updatedAt ≤ a.updatedAt)
  items.filterMap (fun x => (mapGet byId x.refId).map (fun o => (x, o)))

/-- The effective ad frequency in minutes: the configured value when it is
present and nonzero, otherwise the default 12 written in shouldPlayAd as
loop.adFrequencyMins || 12. -/
def effFreq (c : Catalog) : ℚ :=
  match c.loopChannel.bind LoopChannel.adFrequencyMins with
  | none => 12
  | some q => if q = 0 then 12 else q

/-- shouldPlayAd of app.js. The first branch mirrors the dead NaN guard
if (!freqMins) return false, unreachable here because the || 12 default
already replaced a zero value. Times are in milliseconds. -/
def shouldPlayAd (c : Catalog) (lastAdAt nowMs : ℚ) : Bool :=
  let freqMins : ℚ :=
    match c.loopChannel with
    | none => 12
    | some l =>
      match l.adFrequencyMins with
      | none => 12
      | some q => if q = 0 then 12 else q
  if freqMins = 0 then false
  else
    let elapsedMs := nowMs - lastAdAt
    decide (freqMins * 60 * 1000 ≤ elapsedMs)

/-- A queue entry of the LIVE loop. -/
structure LoopItem where
  kind : String
  refType : String
  refId : String
  label : String
  poster : String
  playbackId : String
  deriving DecidableEq

/-- An ad interstitial chosen by pickLoopAd. -/
structure AdSlot where
  kind : String
  label : String
  durationSec : ℚ
  playbackId : String
  mediaUrl : String
  clickUrl : String
  deriving DecidableEq

/-- The destructuring swap of two array cells of shuffleArray. Both
indices are in range at every call site (i from the loop bound, j a floored
draw in 0..i); the identity fallback is unreachable there. -/
def swapList {α : Type} (l : List α) (i j : Nat) : List α :=
  match l[i]?, l[j]? with
  | some x, some y => (l.set i y).set j x
  | _, _ => l

/-- The Fisher-Yates loop of shuffleArray, running for i = k, k-1, ..., 1
and swapping position i with position g i. -/
def fyAux {α : Type} (g : Nat → Nat) : Nat → List α → List α
  | 0, a => a
  | i + 1, a => fyAux g i (swapList a (i + 1) (g (i + 1)))

/-- shuffleArray of app.js, with the random draws supplied by g: at loop
position i the source computes Math.floor(Math.random() * (i + 1)), which
lies in 0..i. -/
def shuffleArray {α : Type} (g : Nat → Nat) (a : List α) : List α :=
  fyAux g (a.length - 1) a

/-- The state.loop object of app.js. -/
structure LoopState where
  queue : List LoopItem
  index : Nat
  lastAdAt : ℚ
  shuffle : Bool
  playingAd : Bool
  deriving DecidableEq

/-- resolveLoopItem of app.js: resolve a rotation reference against the
entity index. Null entries, unknown reference types and unresolved ids
yield null; a resolved entity always yields an item, with playbackId
falling back to the empty string when the entity has no playback ids. -/
def resolveLoopItem (byId : EntityIndex) (it : Option RotRef) : Option LoopItem :=
  match it with
  | none => none
  | some r =>
    if r.refType = "title" then
      match mapGet byId r.refId with
      | none => none
      | some t =>
        some { kind := "content", refType := r.refType, refId := r.refId
               label := orStr r.label (orStr t.titleField "Untitled")
               poster := posterE t
               playbackId := orStr t.contentPb (orStr t.trailerPb "") }
    else if r.refType = "episode" then
      match mapGet byId r.refId with
      | none => none
      | some ep =>
        let series := match ep.seriesIdOf with
          | none => none
          | some sid => mapGet byId sid
        some { kind := "content", refType := r.refType, refId := r.refId
               label := orStr r.label
                 (orStr (series.bind Entity.titleField) "Series" ++ " — S" ++
                   natStr ((ep.seasonIdxOf.getD 0) + 1) ++ "E" ++
                   natStr ((ep.epIdxOf.getD 0) + 1) ++ " • " ++
                   orStr ep.titleField "Untitled")
               poster := orStr ep.thumbOf (orStr (series.bind Entity.posterUrlField) "")
               playbackId := orStr ep.contentPb (orStr ep.trailerPb "") }
    else none

/-- initLoopQueue of app.js. When the loopChannel is absent or has no
rotation items, only the queue is cleared and the function returns early;
otherwise the references are resolved, the queue optionally shuffled, and
index, lastAdAt, shuffle and playingAd are reset. -/
def initLoopQueue (c : Catalog) (byId : EntityIndex) (g : Nat → Nat) (st : LoopState) :
    LoopState :=
  match c.loopChannel with
  | none => { st with queue := [] }
  | some l =>
    if (l.rotationItems.getD []).length = 0 then { st with queue := [] }
    else
      let items := (l.rotationItems.getD []).filterMap (resolveLoopItem byId)
      { queue := if l.shuffle then shuffleArray g items else items
        index := 0, lastAdAt := 0, shuffle := l.shuffle, playingAd := false }

/-- pickLoopAd of app.js, with the uniform random index supplied as k. -/
def pickLoopAd (c : Catalog) (k : Nat) : Option AdSlot :=
  let ads := (c.loopChannel.bind LoopChannel.sponsoredAds).getD []
  if ads.length = 0 then none
  else
    match ads[k]? with
    | none => none
    | some ad =>
      some { kind := "ad"
             label := orStr ad.name "Sponsored"
             durationSec := match ad.durationSec with
               | none => 15
               | some d => if d = 0 then 15 else d
             playbackId := ad.muxAdPlaybackId.getD ""
             mediaUrl := ad.mediaUrl.getD ""
             clickUrl := ad.clickUrl.getD "" }

/-- The composite condition under which playNextLoop enters an ad break:
not already in one, the frequency gate is open, and the picked ad has a
playable source. -/
def adBreakTaken (c : Catalog) (nowMs : ℚ) (adK : Nat) (st : LoopState) : Bool :=
  (!st.playingAd && shouldPlayAd c st.lastAdAt nowMs) &&
    (match pickLoopAd c adK with
     | some ad => !(ad.playbackId == "") || !(ad.mediaUrl == "")
     | none => false)

/-- nextLoopItem of app.js: on an empty queue return null untouched;
otherwise advance the index modulo the queue length and reshuffle in place
on a wrap to 0 with shuffle enabled, returning the item now selected. -/
def nextLoopItem (g : Nat → Nat) (st : LoopState) : LoopState × Option LoopItem :=
  if st.queue.length = 0 then (st, none)
  else
    let i := (st.index + 1) % st.queue.length
    let q := if i = 0 && st.shuffle then shuffleArray g st.queue else st.queue
    ({ st with index := i, queue := q }, q[i]?)

/-- playNextLoop of app.js, the advance operation of the scheduler: enter
an ad break when adBreakTaken holds, stamping lastAdAt with the current
time and not advancing the index; otherwise clear playingAd and advance. -/
def playNextLoop (c : Catalog) (nowMs : ℚ) (adK : Nat) (g : Nat → Nat) (st : LoopState) :
    LoopState :=
  if adBreakTaken c nowMs adK st then { st with playingAd := true, lastAdAt := nowMs }
  else (nextLoopItem g { st with playingAd := false }).1

/-- Iterated advance: state after k calls to playNextLoop, the k-th call
observing time times k, ad choice adKs k and shuffle draws gs k. -/
def advRun (c : Catalog) (times : Nat → ℚ) (adKs : Nat → Nat) (gs : Nat → Nat → Nat)
    (st : LoopState) : Nat → LoopState
  | 0 => st
  | k + 1 => playNextLoop c (times k) (adKs k) (gs k) (advRun c times adKs gs st k)

/-- The record that recordProgress stores for one accepted call: clamped
progress and duration, ratio recomputed from the raw arguments, updatedAt
stamped with the observed time. -/
def storedRec (c : RCall) : WRec :=
  { refType := c.refType
    refId := c.refId
    routeHash := c.routeHash
    progressSec := max 0 c.progressSec
    durationSec := max 1 c.durationSec
    ratio := c.progressSec / c.durationSec
    updatedAt := c.now }

/-- Fixture: a film title with a content playback id only. -/
def tFilm : Title :=
  { id := "t1", type := "films", title := some "Movie", posterUrl := none, appImages := none
    contentPlaybackId := some "pb1", trailerPlaybackId := none, seasons := [] }

/-- Fixture: a film title without any playback id. -/
def tNoPb : Title :=
  { id := "t2", type := "films", title := some "Bare", posterUrl := none, appImages := none
    contentPlaybackId := none, trailerPlaybackId := none, seasons := [] }

/-- Fixture: an entity index holding the two film fixtures. -/
def idxEx : EntityIndex := [("t1", Entity.title tFilm), ("t2", Entity.title tNoPb)]

/-- Fixture: a catalog whose loopChannel sets adFrequencyMins to 0. -/
def cFreqZero : Catalog :=
  { titles := none, publishedTitles := none
    loopChannel := some
      { rotationItems := none, sponsoredAds := none, adFrequencyMins := some 0
        shuffle := false } }

/-- Fixture: a catalog with no loopChannel at all. -/
def cNoLoop : Catalog := { titles := none, publishedTitles := none, loopChannel := none }

/-- Fixture: a catalog whose loopChannel only configures one playable
sponsored ad. -/
def cAdOnly : Catalog :=
  { titles := none, publishedTitles := none
    loopChannel := some
      { rotationItems := none
        sponsoredAds := some
          [{ name := some "Ad", durationSec := some 10, muxAdPlaybackId := some "ad1"
             mediaUrl := none, clickUrl := none }]
        adFrequencyMins := none, shuffle := false } }

/-- Fixture: the first recordProgress call of the worked example, 30 of
120 seconds watched at time 1. -/
def callA : RCall :=
  { refType := "title", refId := "t1", routeHash := "#/watch/t1"
    progressSec := 30, durationSec := 120, now := 1 }

/-- Fixture: the second recordProgress call of the worked example, 90 of
120 seconds watched at time 2. -/
def callB : RCall :=
  { refType := "title", refId := "t1", routeHash := "#/watch/t1"
    progressSec := 90, durationSec := 120, now := 2 }

/-- Fixture: a call whose refId is the empty string. -/
def callEmptyId : RCall :=
  { refType := "title", refId := "", routeHash := "#/watch/x"
    progressSec := 30, durationSec := 120, now := 1 }

/-- Fixture: the record stored for a call with progress 1 of duration 1/2,
whose stored ratio 2 differs from the quotient 1/1 of the stored fields. -/
def rHalf : WRec :=
  { refType := "title", refId := "t1", routeHash := "h"
    progressSec := 1, durationSec := 1, ratio := 2, updatedAt := 7 }

/-- Fixture: a nearly finished record, 115 of 120 seconds watched. -/
def recDone : WRec :=
  { refType := "title", refId := "t1", routeHash := "#/watch/t1"
    progressSec := 115, durationSec := 120, ratio := 115 / 120, updatedAt := 9 }

/-- Fixture: a resumable record, 30 of 120 seconds watched. -/
def recLow : WRec :=
  { refType := "title", refId := "t1", routeHash := "#/watch/t1"
    progressSec := 30, durationSec := 120, ratio := 30 / 120, updatedAt := 5 }

/-- Fixture: a loop queue item with playback id a. -/
def itemA : LoopItem :=
  { kind := "content", refType := "title", refId := "ta", label := "A", poster := ""
    playbackId := "a" }

/-- Fixture: a loop queue item with playback id b. -/
def itemB : LoopItem :=
  { kind := "content", refType := "title", refId := "tb", label := "B", poster := ""
    playbackId := "b" }

/-- Fixture: a playing loop state with a two-item queue, shuffle on. -/
def stLoop2 : LoopState :=
  { queue := [itemA, itemB], index := 0, lastAdAt := 0, shuffle := true, playingAd := false }

/-- Fixture: a stale loop state carrying leftovers from a previous run. -/
def stStale : LoopState :=
  { queue := [itemA], index := 3, lastAdAt := 7, shuffle := false, playingAd := true }

/-- Fixture: an idle loop state with an empty queue. -/
def stIdle : LoopState :=
  { queue := [], index := 0, lastAdAt := 0, shuffle := false, playingAd := false }

/-- Fixture: a loopChannel with one resolvable rotation item, shuffle off. -/
def lcRot : LoopChannel :=
  { rotationItems := some [some { refType := "title", refId := "t1", label := none }]
    sponsoredAds := none, adFrequencyMins := none, shuffle := false }

/-- Fixture: a catalog whose loopChannel is lcRot. -/
def cRot : Catalog := { titles := none, publishedTitles := none, loopChannel := some lcRot }

/-- Fixture: a rotation reference to the film fixture that has a playback
id. -/
def refT1 : RotRef := { refType := "title", refId := "t1", label := none }

/-- Fixture: a rotation reference to the film fixture without playback
ids. -/
def refT2 : RotRef := { refType := "title", refId := "t2", label := none }

/-- Fixture: the loop item resolved from refT1. -/
def itemT1 : LoopItem :=
  { kind := "content", refType := "title", refId := "t1", label := "Movie", poster := ""
    playbackId := "pb1" }

/-- Fixture: the loop item resolved from refT2, retained with an empty
playbackId. -/
def itemT2 : LoopItem :=
  { kind := "content", refType := "title", refId := "t2", label := "Bare", poster := ""
    playbackId := "" }

/-- Fixture: an episode object with no fields set. -/
def epBlank : Episode :=
  { id := none, title := none, thumbnailUrl := none, contentPlaybackId := none
    trailerPlaybackId := none, seriesId := none, seasonIndex := none, epIndex := none }

/-- Fixture: a catalog with two series sharing the id a, each with one
season holding one episode that lacks an id. -/
def cDup : Catalog :=
  { titles := some
      [{ id := "a", type := "series", title := none, posterUrl := none, appImages := none
         contentPlaybackId := none, trailerPlaybackId := none
         seasons := [{ seasonNumber := none, episodes := [epBlank] }] },
       { id := "a", type := "series", title := none, posterUrl := none, appImages := none
         contentPlaybackId := none, trailerPlaybackId := none
         seasons := [{ seasonNumber := none, episodes := [epBlank] }] }]
    publishedTitles := none, loopChannel := none }

/-- Fixture: the worked example catalog, one series s1 with one season of
two episodes that lack ids. -/
def cS1 : Catalog :=
  { titles := some
      [{ id := "s1", type := "series", title := some "Show", posterUrl := none
         appImages := none, contentPlaybackId := none, trailerPlaybackId := none
         seasons := [{ seasonNumber := some 1, episodes := [epBlank, epBlank] }] }]
    publishedTitles := none, loopChannel := none }

/-! Helper lemmas about the progress store. -/

theorem recordProgress_pos_eq (st : List WRec) (rt rid h : String) (p d now : ℚ)
    (hrid : rid ≠ "") (hd : 0 < d) :
    recordProgress st rt rid h p d now =
      storedRec ⟨rt, rid, h, p, d, now⟩ ::
        (st.filter (fun x => !(x.refId == rid && x.refType == rt))).take 29 := by
  unfold recordProgress upsertWatchItem
  rw [if_neg]
  · rfl
  · simp [hrid, hd.ne', not_le.mpr hd]

/-- C10: every playback intent other than trailer, including unknown
strings and the defaulted absent intent, selects the content playback
identifier, and an absent identifier yields an absent result rather than
an error. -/
theorem muxIdFor_content_default (e : Entity) (kind : String) :
    (kind ≠ "trailer" → muxIdFor e kind = e.contentPb) ∧
    (e.contentPb = none → kind ≠ "trailer" → muxIdFor e kind = none) := by
  refine ⟨fun hk => ?_, fun hnone hk => ?_⟩
  · simp [muxIdFor, hk]
  · simp [muxIdFor, hk, hnone]

theorem muxIdFor_content_default_witness :
    ("bogus" : String) ≠ "trailer" ∧
      muxIdFor (Entity.title tFilm) "bogus" = (Entity.title tFilm).contentPb :=
  ⟨by decide, (muxIdFor_content_default (Entity.title tFilm) "bogus").1 (by decide)⟩

/-- C4 counterexample: with adFrequencyMins set to 0 the claim predicts
false for every elapsed time, but after twelve minutes shouldPlayAd
returns true, because the source falls back to the default 12 via
loop.adFrequencyMins || 12. -/
theorem shouldPlayAd_zero_freq_counterexample :
    (cFreqZero.loopChannel.bind LoopChannel.adFrequencyMins = some 0) ∧
      shouldPlayAd cFreqZero 0 720000 = true := by
  constructor
  · rfl
  · unfold shouldPlayAd cFreqZero
    norm_num

/-- C4 amended: shouldPlayAd returns true exactly when the elapsed time
since lastAdAt reaches the effective frequency times 60000 milliseconds,
where the effective frequency is adFrequencyMins when present and nonzero
and otherwise the default 12; a zero or absent frequency therefore selects
the 12-minute default instead of disabling ad insertion. -/
theorem shouldPlayAd_iff (c : Catalog) (lastAdAt nowMs : ℚ) :
    (shouldPlayAd c lastAdAt nowMs = true ↔ effFreq c * 60 * 1000 ≤ nowMs - lastAdAt) ∧
    (c.loopChannel.bind LoopChannel.adFrequencyMins = none ∨
        c.loopChannel.bind LoopChannel.adFrequencyMins = some 0 →
      effFreq c = 12) := by
  constructor
  · unfold shouldPlayAd effFreq
    cases hl : c.loopChannel with
    | none => norm_num
    | some l =>
      cases hf : l.adFrequencyMins with
      | none => norm_num [Option.bind, hl, hf]
      | some q =>
        by_cases hq : q = 0
        · norm_num [Option.bind, hl, hf, hq]
        · simp [Option.bind, hl, hf, hq]
  · intro habs
    unfold effFreq
    rcases habs with habs | habs <;> rw [habs]
    norm_num

theorem shouldPlayAd_iff_witness : effFreq cFreqZero = 12 :=
  (shouldPlayAd_iff cFreqZero 0 0).2 (Or.inr rfl)

/-- C9 counterexample: the call record("title","t1","h",1,1/2,at time 7)
passes the guard, stores progressSec 1 and durationSec 1 after clamping,
but stores ratio 2 computed from the raw arguments, which differs from
the quotient 1 of the stored fields, so clamping does change the relation
the claim asserts. -/
theorem recordProgress_clamp_counterexample :
    recordProgress [] "title" "t1" "h" 1 (1 / 2) 7 = [rHalf] ∧
      rHalf.ratio ≠ rHalf.progressSec / rHalf.durationSec := by
  constructor
  · rw [recordProgress_pos_eq [] "title" "t1" "h" 1 (1 / 2) 7 (by decide) (by norm_num)]
    unfold storedRec rHalf
    norm_num
  · unfold rHalf
    norm_num

/-- C9 amended: every record stored by an accepted recordProgress call has
progressSec at least 0, durationSec at least 1 and hence positive, and a
ratio equal to the quotient of the raw call arguments; whenever the raw
arguments already satisfy the clamps, that ratio coincides with the
quotient of the stored fields. -/
theorem recordProgress_stored_invariant (st : List WRec) (rt rid h : String) (p d now : ℚ)
    (hrid : rid ≠ "") (hd : 0 < d) :
    ∃ rest,
      recordProgress st rt rid h p d now = storedRec ⟨rt, rid, h, p, d, now⟩ :: rest ∧
      0 ≤ (storedRec ⟨rt, rid, h, p, d, now⟩).progressSec ∧
      0 < (storedRec ⟨rt, rid, h, p, d, now⟩).durationSec ∧
      (storedRec ⟨rt, rid, h, p, d, now⟩).progressSec = max 0 p ∧
      (storedRec ⟨rt, rid, h, p, d, now⟩).durationSec = max 1 d ∧
      (storedRec ⟨rt, rid, h, p, d, now⟩).ratio = p / d ∧
      (0 ≤ p → 1 ≤ d →
        (storedRec ⟨rt, rid, h, p, d, now⟩).ratio =
          (storedRec ⟨rt, rid, h, p, d, now⟩).progressSec /
            (storedRec ⟨rt, rid, h, p, d, now⟩).durationSec) := by
  refine ⟨_, recordProgress_pos_eq st rt rid h p d now hrid hd, ?_, ?_, rfl, rfl, rfl, ?_⟩
  · exact le_max_left 0 p
  · exact lt_of_lt_of_le one_pos (le_max_left 1 d)
  · intro hp hd1
    unfold storedRec
    simp [max_eq_right hp, max_eq_right hd1]

theorem recordProgress_stored_invariant_witness :
    ("t1" : String) ≠ "" ∧ (0 : ℚ) < 120 ∧
      ∃ rest,
        recordProgress [] "title" "t1" "#/watch/t1" 30 120 5 =
          storedRec ⟨"title", "t1", "#/watch/t1", 30, 120, 5⟩ :: rest ∧
        0 ≤ (storedRec ⟨"title", "t1", "#/watch/t1", 30, 120, 5⟩).progressSec ∧
        0 < (storedRec ⟨"title", "t1", "#/watch/t1", 30, 120, 5⟩).durationSec ∧
        (storedRec ⟨"title", "t1", "#/watch/t1", 30, 120, 5⟩).progressSec = max 0 30 ∧
        (storedRec ⟨"title", "t1", "#/watch/t1", 30, 120, 5⟩).durationSec = max 1 120 ∧
        (storedRec ⟨"title", "t1", "#/watch/t1", 30, 120, 5⟩).ratio = 30 / 120 ∧
        (0 ≤ (30 : ℚ) → 1 ≤ (120 : ℚ) →
          (storedRec ⟨"title", "t1", "#/watch/t1", 30, 120, 5⟩).ratio =
            (storedRec ⟨"title", "t1", "#/watch/t1", 30, 120, 5⟩).progressSec /
              (storedRec ⟨"title", "t1", "#/watch/t1", 30, 120, 5⟩).durationSec) :=
  ⟨by decide, by decide,
    recordProgress_stored_invariant [] "title" "t1" "#/watch/t1" 30 120 5 (by decide)
      (by decide)⟩

theorem runCalls_append (st : List WRec) (l1 l2 : List RCall) :
    runCalls st (l1 ++ l2) = runCalls (runCalls st l1) l2 := by
  induction l1 generalizing st with
  | nil => rfl
  | cons c rest ih =>
    simp only [List.cons_append, runCalls]
    exact ih _

theorem mem_recordProgress {r : WRec} {st : List WRec} {rt rid h : String} {p d now : ℚ}
    (hr : r ∈ recordProgress st rt rid h p d now) :
    r = storedRec ⟨rt, rid, h, p, d, now⟩ ∨ r ∈ st := by
  unfold recordProgress upsertWatchItem at hr
  split at hr
  · exact Or.inr hr
  · have := List.mem_of_mem_take hr
    rcases List.mem_cons.mp this with heq | hmem
    · exact Or.inl heq
    · exact Or.inr (List.mem_of_mem_filter hmem)

theorem recordProgress_sorted {st : List WRec} {rt rid h : String} {p d now : ℚ}
    (hrid : rid ≠ "") (hd : 0 < d)
    (hsort : st.Pairwise (fun a b => b.updatedAt ≤ a.updatedAt))
    (hbound : ∀ r ∈ st, r.updatedAt ≤ now) :
    (recordProgress st rt rid h p d now).Pairwise (fun a b => b.updatedAt ≤ a.updatedAt) := by
  rw [recordProgress_pos_eq st rt rid h p d now hrid hd]
  refine List.Pairwise.cons (fun y hy => ?_) ?_
  · exact hbound y (List.mem_of_mem_filter (List.mem_of_mem_take hy))
  · exact List.Pairwise.sublist ((List.take_sublist _ _).trans (List.filter_sublist _)) hsort

theorem runCalls_sorted (calls : List RCall) : ∀ st : List WRec,
    (∀ c ∈ calls, c.refId ≠ "" ∧ 0 < c.durationSec) →
    st.Pairwise (fun a b => b.updatedAt ≤ a.updatedAt) →
    (∀ r ∈ st, ∀ c ∈ calls, r.updatedAt ≤ c.now) →
    calls.Pairwise (fun a b => a.now ≤ b.now) →
    (runCalls st calls).Pairwise (fun a b => b.updatedAt ≤ a.updatedAt) := by
  induction calls with
  | nil => intro st _ hsort _ _; exact hsort
  | cons c rest ih =>
    intro st hok hsort hbound hmono
    have hc := hok c (List.mem_cons_self c rest)
    have hmono' := List.pairwise_cons.mp hmono
    refine ih (recordProgress st c.refType c.refId c.routeHash c.progressSec c.durationSec c.now)
      (fun x hx => hok x (List.mem_cons_of_mem c hx)) ?_ ?_ hmono'.2
    · exact recordProgress_sorted hc.1 hc.2 hsort
        (fun r hr => hbound r hr c (List.mem_cons_self c rest))
    · intro r hr c' hc'
      rcases mem_recordProgress hr with heq | hmem
      · subst heq
        exact hmono'.1 c' hc'
      · exact hbound r hmem c' (List.mem_cons_of_mem c hc')

/-- C2 counterexample: a single call with the empty refId and a positive
duration is silently ignored, so the store afterwards holds no record at
all for the pair, not exactly one as the claim states for every pair. -/
theorem runCalls_empty_refid_counterexample :
    0 < callEmptyId.durationSec ∧ runCalls [] [callEmptyId] = [] := by
  refine ⟨by norm_num [callEmptyId], ?_⟩
  simp [runCalls, recordProgress, callEmptyId]

/-- C2 amended: for every sequence of accepted recordProgress calls on the
same pair, with a non-empty refId and positive durations, the final store
keeps exactly one record for the pair, equal to the stored form of the
last call (progress and duration clamped, ratio recomputed from the raw
arguments), placed at the head; and when the prior log was ordered by
recency with timestamps at or below the call times, taken in
non-decreasing order, the whole log stays ordered most recent first. -/
theorem runCalls_upsert_last (st : List WRec) (init : List RCall) (last : RCall)
    (rt rid : String)
    (hsame : ∀ c ∈ init ++ [last], c.refType = rt ∧ c.refId = rid)
    (hrid : rid ≠ "")
    (hdur : ∀ c ∈ init ++ [last], 0 < c.durationSec)
    (hsort : st.Pairwise (fun a b => b.updatedAt ≤ a.updatedAt))
    (hbound : ∀ r ∈ st, ∀ c ∈ init ++ [last], r.updatedAt ≤ c.now)
    (hmono : (init ++ [last]).Pairwise (fun a b => a.now ≤ b.now)) :
    (runCalls st (init ++ [last])).head? = some (storedRec last) ∧
    (runCalls st (init ++ [last])).filter
        (fun x => x.refId == rid && x.refType == rt) = [storedRec last] ∧
    (runCalls st (init ++ [last])).Pairwise (fun a b => b.updatedAt ≤ a.updatedAt) := by
  have hlastmem : last ∈ init ++ [last] := by simp
  obtain ⟨hlrt, hlrid⟩ := hsame last hlastmem
  have hlrid' : last.refId ≠ "" := by rw [hlrid]; exact hrid
  have hlast :
      runCalls st (init ++ [last]) =
        storedRec last ::
          ((runCalls st init).filter
              (fun x => !(x.refId == last.refId && x.refType == last.refType))).take 29 := by
    rw [runCalls_append]
    show recordProgress (runCalls st init) last.refType last.refId last.routeHash
        last.progressSec last.durationSec last.now = _
    rw [recordProgress_pos_eq _ _ _ _ _ _ _ hlrid' (hdur last hlastmem)]
  refine ⟨?_, ?_, ?_⟩
  · rw [hlast]; rfl
  · have hhead : ((storedRec last).refId == rid && (storedRec last).refType == rt) = true := by
      simp [storedRec, hlrt, hlrid]
    have hrest :
        (((runCalls st init).filter
            (fun x => !(x.refId == last.refId && x.refType == last.refType))).take 29).filter
          (fun x => x.refId == rid && x.refType == rt) = [] := by
      rw [List.filter_eq_nil_iff]
      intro y hy
      have hy' := List.mem_filter.mp (List.mem_of_mem_take hy)
      have h2 := hy'.2
      rw [hlrid, hlrt] at h2
      simp only [Bool.not_eq_true', Bool.and_eq_false_iff, beq_eq_false_iff_ne, ne_eq] at h2
      simp only [Bool.and_eq_true, beq_iff_eq, not_and]
      intro h1
      rcases h2 with h | h
      · exact absurd h1 h
      · exact h
    rw [hlast, List.filter_cons, if_pos hhead, hrest]
  · exact runCalls_sorted (init ++ [last]) st
      (fun c hc => ⟨by rw [(hsame c hc).2]; exact hrid, hdur c hc⟩) hsort hbound hmono

theorem runCalls_upsert_last_witness :
    (∀ c ∈ [callA] ++ [callB], c.refType = "title" ∧ c.refId = "t1") ∧
    ("t1" : String) ≠ "" ∧
    (∀ c ∈ [callA] ++ [callB], 0 < c.durationSec) ∧
    (([] : List WRec).Pairwise (fun a b => b.updatedAt ≤ a.updatedAt)) ∧
    (([callA] ++ [callB]).Pairwise (fun a b => a.now ≤ b.now)) ∧
    ((runCalls [] ([callA] ++ [callB])).head? = some (storedRec callB) ∧
      (runCalls [] ([callA] ++ [callB])).filter
          (fun x => x.refId == "t1" && x.refType == "title") = [storedRec callB] ∧
      (runCalls [] ([callA] ++ [callB])).Pairwise (fun a b => b.updatedAt ≤ a.updatedAt)) :=
  ⟨by decide, by decide, by decide, List.Pairwise.nil, by decide,
    runCalls_upsert_last [] [callA] callB "title" "t1" (by decide) (by decide) (by decide)
      List.Pairwise.nil (by simp) (by decide)⟩

/-- C3: continueWatchingItems only returns records with ratio strictly
below 0.92 whose entity is still present in the index, paired with that
entity, and the result is ordered by updatedAt descending; it never
returns a finished record nor a record whose entity is absent. -/
theorem continueWatching_filtered_sorted (store : List WRec) (byId : EntityIndex) :
    (∀ p ∈ continueWatchingItems store byId,
        p.1.ratio < 92 / 100 ∧ mapGet byId p.1.refId = some p.2) ∧
    (continueWatchingItems store byId).Pairwise
      (fun a b => b.1.updatedAt ≤ a.1.updatedAt) := by
  constructor
  · intro p hp
    unfold continueWatchingItems at hp
    rw [List.mem_filterMap] at hp
    obtain ⟨x, hx, hfx⟩ := hp
    rw [Option.map_eq_some'] at hfx
    obtain ⟨o, ho, rfl⟩ := hfx
    have hx' := List.mem_mergeSort.mp hx
    have hfilt := (List.mem_filter.mp hx').2
    exact ⟨by simpa using hfilt, ho⟩
  · unfold continueWatchingItems
    have hsorted :
        (((store.filter (fun x => x.ratio < 92 / 100)).mergeSort
            (fun a b => b.updatedAt ≤ a.updatedAt)).Pairwise
          (fun a b : WRec => (decide (b.updatedAt ≤ a.updatedAt)) = true)) :=
      List.sorted_mergeSort
        (fun a b c hab hbc => by
          simp only [decide_eq_true_eq] at hab hbc ⊢
          exact le_trans hbc hab)
        (fun a b => by
          simpa [Bool.or_eq_true, decide_eq_true_eq] using le_total b.updatedAt a.updatedAt)
        (store.filter (fun x => x.ratio < 92 / 100))
    refine List.pairwise_filterMap.mpr (hsorted.imp ?_)
    intro a b hab p hp q hq
    rw [Option.mem_def, Option.map_eq_some'] at hp hq
    obtain ⟨o1, -, rfl⟩ := hp
    obtain ⟨o2, -, rfl⟩ := hq
    simpa using of_decide_eq_true hab

theorem continueWatching_filtered_sorted_witness :
    (∀ p ∈ continueWatchingItems [recDone, recLow] idxEx,
        p.1.ratio < 92 / 100 ∧ mapGet idxEx p.1.refId = some p.2) ∧
    (continueWatchingItems [recDone, recLow] idxEx).Pairwise
      (fun a b => b.1.updatedAt ≤ a.1.updatedAt) :=
  continueWatching_filtered_sorted [recDone, recLow] idxEx

/-! Permutation lemmas for the Fisher-Yates shuffle. -/

theorem swap_shape {α : Type} (A B C : List α) (x y : α) :
    ((A ++ x :: (B ++ y :: C)).set A.length y).set (A.length + B.length + 1) x =
      A ++ y :: (B ++ x :: C) := by
  rw [List.set_append, if_neg (lt_irrefl A.length), Nat.sub_self, List.set_cons_zero]
  rw [List.set_append, if_neg (by omega)]
  have h1 : A.length + B.length + 1 - A.length = B.length + 1 := by omega
  rw [h1, List.set_cons_succ]
  rw [List.set_append, if_neg (lt_irrefl B.length), Nat.sub_self, List.set_cons_zero]

theorem swap_perm_shape {α : Type} (A B C : List α) (x y : α) :
    (A ++ y :: (B ++ x :: C)).Perm (A ++ x :: (B ++ y :: C)) := by
  apply List.Perm.append_left
  exact List.Perm.trans (List.Perm.cons y List.perm_middle)
    (List.Perm.trans (List.Perm.swap x y (B ++ C)) (List.Perm.cons x List.perm_middle.symm))

theorem set_set_perm_abstract {α : Type} (A B C : List α) (x y : α) :
    (((A ++ x :: (B ++ y :: C)).set A.length y).set (A.length + B.length + 1) x).Perm
      (A ++ x :: (B ++ y :: C)) := by
  rw [swap_shape]
  exact swap_perm_shape A B C x y

theorem set_getElem_self {α : Type} (l : List α) (i : Nat) (hi : i < l.length) :
    l.set i l[i] = l := by
  apply List.ext_getElem?
  intro k
  rw [List.getElem?_set]
  by_cases hik : i = k
  · subst hik
    simp [hi, List.getElem?_eq_getElem hi]
  · simp [hik]

theorem set_set_perm_lt {α : Type} (l : List α) (i j : Nat) (x y : α) (hij : i < j)
    (hi : i < l.length) (hj : j < l.length) (hx : l[i] = x) (hy : l[j] = y) :
    ((l.set i y).set j x).Perm l := by
  have hd1 : l = l.take i ++ x :: l.drop (i + 1) := by
    conv_lhs => rw [← List.take_append_drop i l]
    rw [List.drop_eq_getElem_cons hi, hx]
  have hd2 : l.drop (i + 1) =
      (l.drop (i + 1)).take (j - i - 1) ++ y :: l.drop (j + 1) := by
    conv_lhs => rw [← List.take_append_drop (j - i - 1) (l.drop (i + 1))]
    rw [List.drop_drop]
    have he : i + 1 + (j - i - 1) = j := by omega
    rw [he, List.drop_eq_getElem_cons hj, hy]
  have hAlen : (l.take i).length = i := by
    rw [List.length_take]
    exact min_eq_left (le_of_lt hi)
  have hBlen : ((l.drop (i + 1)).take (j - i - 1)).length = j - i - 1 := by
    rw [List.length_take, List.length_drop]
    exact min_eq_left (by omega)
  have hdec :
      l = l.take i ++ x :: ((l.drop (i + 1)).take (j - i - 1) ++ y :: l.drop (j + 1)) := by
    rw [← hd2]
    exact hd1
  obtain ⟨A, hA⟩ : ∃ A, l.take i = A := ⟨_, rfl⟩
  obtain ⟨B, hB⟩ : ∃ B, (l.drop (i + 1)).take (j - i - 1) = B := ⟨_, rfl⟩
  obtain ⟨C, hC⟩ : ∃ C, l.drop (j + 1) = C := ⟨_, rfl⟩
  rw [hA] at hAlen hdec
  rw [hB] at hBlen hdec
  rw [hC] at hdec
  conv_lhs => rw [hdec]
  conv_rhs => rw [hdec]
  rw [show i = A.length from hAlen.symm, show j = A.length + B.length + 1 from by omega]
  exact set_set_perm_abstract A B C x y

theorem swapList_perm {α : Type} (l : List α) (i j : Nat) : (swapList l i j).Perm l := by
  unfold swapList
  cases hx : l[i]? with
  | none => exact List.Perm.refl l
  | some x =>
    cases hy : l[j]? with
    | none => exact List.Perm.refl l
    | some y =>
      obtain ⟨hi, hxe⟩ := List.getElem?_eq_some.mp hx
      obtain ⟨hj, hye⟩ := List.getElem?_eq_some.mp hy
      show ((l.set i y).set j x).Perm l
      rcases Nat.lt_trichotomy i j with hij | heq | hij
      · exact set_set_perm_lt l i j x y hij hi hj hxe hye
      · subst heq
        have hxy : x = y := by rw [← hxe, ← hye]
        subst hxy
        rw [List.set_set, ← hxe, set_getElem_self l i hi]
      · rw [List.set_comm y x l (show i ≠ j from by omega)]
        exact set_set_perm_lt l j i y x hij hj hi hye hxe

theorem fyAux_perm {α : Type} (g : Nat → Nat) : ∀ (k : Nat) (a : List α), (fyAux g k a).Perm a := by
  intro k
  induction k with
  | zero => intro a; exact List.Perm.refl a
  | succ k ih =>
    intro a
    exact (ih (swapList a (k + 1) (g (k + 1)))).trans (swapList_perm a (k + 1) (g (k + 1)))

theorem shuffleArray_perm {α : Type} (g : Nat → Nat) (a : List α) :
    (shuffleArray g a).Perm a :=
  fyAux_perm g (a.length - 1) a

/-! Loop scheduler lemmas. -/

theorem playNextLoop_no_break {c : Catalog} {nowMs : ℚ} {adK : Nat} {g : Nat → Nat}
    {st : LoopState} (h : adBreakTaken c nowMs adK st = false) :
    playNextLoop c nowMs adK g st = (nextLoopItem g { st with playingAd := false }).1 := by
  unfold playNextLoop
  rw [h]
  rfl

theorem playNextLoop_break {c : Catalog} {nowMs : ℚ} {adK : Nat} {g : Nat → Nat}
    {st : LoopState} (h : adBreakTaken c nowMs adK st = true) :
    playNextLoop c nowMs adK g st = { st with playingAd := true, lastAdAt := nowMs } := by
  unfold playNextLoop
  rw [h]
  rfl

theorem nextLoopItem_no_wrap {g : Nat → Nat} {st : LoopState}
    (h : st.index + 1 < st.queue.length) :
    (nextLoopItem g st).1 = { st with index := st.index + 1 } := by
  obtain ⟨qu, ix, la, sh, pa⟩ := st
  have h' : ix + 1 < qu.length := h
  simp only [nextLoopItem]
  rw [if_neg (show ¬qu.length = 0 from by omega)]
  rw [Nat.mod_eq_of_lt h']
  rw [if_neg (show ¬((decide (ix + 1 = 0) && sh) = true) from by simp)]

theorem nextLoopItem_wrap {g : Nat → Nat} {st : LoopState}
    (hlen : st.queue.length ≠ 0) (h : (st.index + 1) % st.queue.length = 0)
    (hs : st.shuffle = true) :
    (nextLoopItem g st).1 = { st with index := 0, queue := shuffleArray g st.queue } := by
  obtain ⟨qu, ix, la, sh, pa⟩ := st
  have hlen' : ¬qu.length = 0 := hlen
  have h' : (ix + 1) % qu.length = 0 := h
  have hs' : sh = true := hs
  subst hs'
  simp only [nextLoopItem]
  rw [if_neg hlen']
  rw [h']
  rw [if_pos (show (decide ((0 : Nat) = 0) && true) = true from by simp)]

theorem adBreakTaken_no_ads (c : Catalog)
    (h : (c.loopChannel.bind LoopChannel.sponsoredAds).getD [] = []) (nowMs : ℚ) (adK : Nat)
    (st : LoopState) : adBreakTaken c nowMs adK st = false := by
  unfold adBreakTaken pickLoopAd
  rw [h]
  simp

/-- C5: with shuffle enabled, starting from index 0 on a queue of length
N at least 1, after exactly N advance calls in which no ad break occurs
the index is back to 0 and the queue is a permutation of the original
queue. -/
theorem advance_cycle_shuffle_perm (c : Catalog) (times : Nat → ℚ) (adKs : Nat → Nat)
    (gs : Nat → Nat → Nat) (st : LoopState) (N : Nat)
    (hN : st.queue.length = N) (hN1 : 1 ≤ N) (hidx : st.index = 0) (hshuf : st.shuffle = true)
    (hnoad : ∀ k < N, adBreakTaken c (times k) (adKs k) (advRun c times adKs gs st k) = false) :
    (advRun c times adKs gs st N).index = 0 ∧
      (advRun c times adKs gs st N).queue.Perm st.queue := by
  obtain ⟨M, rfl⟩ : ∃ M, N = M + 1 := ⟨N - 1, by omega⟩
  have haux : ∀ k, k ≤ M →
      (advRun c times adKs gs st k).queue = st.queue ∧
      (advRun c times adKs gs st k).index = k ∧
      (advRun c times adKs gs st k).shuffle = true := by
    intro k
    induction k with
    | zero => intro _; exact ⟨rfl, hidx, hshuf⟩
    | succ k ih =>
      intro hk
      obtain ⟨hq, hi, hs⟩ := ih (by omega)
      have hstep : advRun c times adKs gs st (k + 1) =
          (nextLoopItem (gs k) { advRun c times adKs gs st k with playingAd := false }).1 := by
        show playNextLoop c (times k) (adKs k) (gs k) (advRun c times adKs gs st k) = _
        exact playNextLoop_no_break (hnoad k (by omega))
      have hlt : ({ advRun c times adKs gs st k with playingAd := false } : LoopState).index + 1 <
          ({ advRun c times adKs gs st k with playingAd := false } : LoopState).queue.length := by
        simp only [hi, hq, hN]
        omega
      rw [hstep, nextLoopItem_no_wrap hlt]
      simp [hq, hi, hs]
  obtain ⟨hq, hi, hs⟩ := haux M (le_refl M)
  have hstep : advRun c times adKs gs st (M + 1) =
      (nextLoopItem (gs M) { advRun c times adKs gs st M with playingAd := false }).1 := by
    show playNextLoop c (times M) (adKs M) (gs M) (advRun c times adKs gs st M) = _
    exact playNextLoop_no_break (hnoad M (by omega))
  have hwrap : (nextLoopItem (gs M)
        { advRun c times adKs gs st M with playingAd := false }).1 =
      { ({ advRun c times adKs gs st M with playingAd := false } : LoopState) with
          index := 0
          queue := shuffleArray (gs M)
            ({ advRun c times adKs gs st M with playingAd := false } : LoopState).queue } := by
    apply nextLoopItem_wrap
    · simp only [hq, hN]
      omega
    · simp only [hi, hq, hN, Nat.mod_self]
    · simp only [hs]
  rw [hstep, hwrap]
  constructor
  · rfl
  · simp only [hq]
    exact shuffleArray_perm (gs M) st.queue

theorem advance_cycle_shuffle_perm_witness :
    stLoop2.queue.length = 2 ∧ 1 ≤ 2 ∧ stLoop2.index = 0 ∧ stLoop2.shuffle = true ∧
    ((advRun cNoLoop (fun _ => 0) (fun _ => 0) (fun _ _ => 0) stLoop2 2).index = 0 ∧
      (advRun cNoLoop (fun _ => 0) (fun _ => 0) (fun _ _ => 0) stLoop2 2).queue.Perm
        stLoop2.queue) :=
  ⟨rfl, by decide, rfl, rfl,
    advance_cycle_shuffle_perm cNoLoop (fun _ => 0) (fun _ => 0) (fun _ _ => 0) stLoop2 2
      rfl (by decide) rfl rfl
      (fun k _ => adBreakTaken_no_ads cNoLoop rfl (0 : ℚ) 0 _)⟩

/-- C6 counterexample: with a catalog lacking a loopChannel, initializing
the loop queue returns early after clearing the queue, leaving index,
lastAdAt and playingAd at their stale prior values instead of resetting
them as the claim states. -/
theorem initLoopQueue_stale_counterexample :
    (initLoopQueue cNoLoop idxEx (fun i => i) stStale).index = 3 ∧
    (initLoopQueue cNoLoop idxEx (fun i => i) stStale).lastAdAt = 7 ∧
    (initLoopQueue cNoLoop idxEx (fun i => i) stStale).playingAd = true := by
  refine ⟨rfl, ?_, rfl⟩
  show (7 : ℚ) = 7
  rfl

/-- C6 amended: when the loopChannel is absent or its rotation list is
empty, initLoopQueue only clears the queue and leaves every other field
of the prior state untouched; when rotation items exist, it resolves them
against the index, dropping unresolvable ones, optionally shuffles
(always a permutation of the resolved list, and exactly that list when
shuffle is off), and resets index to 0, lastAdAt to 0 and playingAd to
false, including the case where every reference fails to resolve and the
queue comes out empty. -/
theorem initLoopQueue_spec (c : Catalog) (byId : EntityIndex) (g : Nat → Nat)
    (st : LoopState) :
    ((∀ l, c.loopChannel = some l → l.rotationItems.getD [] = []) →
      initLoopQueue c byId g st = { st with queue := [] }) ∧
    (∀ l, c.loopChannel = some l → l.rotationItems.getD [] ≠ [] →
      (initLoopQueue c byId g st).index = 0 ∧
      (initLoopQueue c byId g st).lastAdAt = 0 ∧
      (initLoopQueue c byId g st).playingAd = false ∧
      (initLoopQueue c byId g st).shuffle = l.shuffle ∧
      (initLoopQueue c byId g st).queue.Perm
        ((l.rotationItems.getD []).filterMap (resolveLoopItem byId)) ∧
      (l.shuffle = false →
        (initLoopQueue c byId g st).queue =
          (l.rotationItems.getD []).filterMap (resolveLoopItem byId))) := by
  constructor
  · intro hempty
    cases hl : c.loopChannel with
    | none => simp only [initLoopQueue, hl]
    | some l =>
      simp only [initLoopQueue, hl]
      rw [if_pos (show (l.rotationItems.getD []).length = 0 from by rw [hempty l hl]; rfl)]
  · intro l hl hne
    have hq : initLoopQueue c byId g st =
        { queue := if l.shuffle then
              shuffleArray g ((l.rotationItems.getD []).filterMap (resolveLoopItem byId))
            else (l.rotationItems.getD []).filterMap (resolveLoopItem byId)
          index := 0, lastAdAt := 0, shuffle := l.shuffle, playingAd := false } := by
      simp only [initLoopQueue, hl]
      rw [if_neg (by simpa [List.length_eq_zero] using hne)]
    rw [hq]
    refine ⟨rfl, rfl, rfl, rfl, ?_, ?_⟩ <;> dsimp only
    · split
      · exact shuffleArray_perm g _
      · exact List.Perm.refl _
    · intro hs
      rw [if_neg (by simp [hs])]

theorem initLoopQueue_spec_witness :
    cRot.loopChannel = some lcRot ∧ lcRot.rotationItems.getD [] ≠ [] ∧
    ((initLoopQueue cRot idxEx (fun i => i) stStale).index = 0 ∧
      (initLoopQueue cRot idxEx (fun i => i) stStale).lastAdAt = 0 ∧
      (initLoopQueue cRot idxEx (fun i => i) stStale).playingAd = false ∧
      (initLoopQueue cRot idxEx (fun i => i) stStale).shuffle = lcRot.shuffle ∧
      (initLoopQueue cRot idxEx (fun i => i) stStale).queue.Perm
        ((lcRot.rotationItems.getD []).filterMap (resolveLoopItem idxEx)) ∧
      (lcRot.shuffle = false →
        (initLoopQueue cRot idxEx (fun i => i) stStale).queue =
          (lcRot.rotationItems.getD []).filterMap (resolveLoopItem idxEx))) :=
  ⟨rfl, by decide, (initLoopQueue_spec cRot idxEx (fun i => i) stStale).2 lcRot rfl (by decide)⟩

/-- C7 counterexample: a rotation reference to an existing title that has
neither a content nor a trailer playback id is not dropped: it resolves to
a queue item whose playbackId is the empty string, contradicting the
claim that references without a resolvable playback id are never
retained. -/
theorem resolveLoopItem_no_playback_counterexample :
    tNoPb.contentPlaybackId = none ∧ tNoPb.trailerPlaybackId = none ∧
    resolveLoopItem idxEx (some refT2) = some itemT2 ∧ itemT2.playbackId = "" := by
  refine ⟨rfl, rfl, ?_, rfl⟩
  decide

/-- C7 amended: every item placed in the queue by rotation resolution
comes from a non-null reference of type title or episode whose entity
exists in the current index; null references, unknown reference types and
references to absent entities are dropped. An entity without playback ids
is however retained, with an empty playbackId, rather than dropped. -/
theorem resolveLoopItem_members (byId : EntityIndex) (refs : List (Option RotRef))
    (it : LoopItem) (hit : it ∈ refs.filterMap (resolveLoopItem byId)) :
    ∃ r ∈ refs, ∃ rr, r = some rr ∧ (rr.refType = "title" ∨ rr.refType = "episode") ∧
      ∃ ent, mapGet byId rr.refId = some ent ∧ resolveLoopItem byId r = some it := by
  rw [List.mem_filterMap] at hit
  obtain ⟨r, hr, hres⟩ := hit
  refine ⟨r, hr, ?_⟩
  cases r with
  | none => simp [resolveLoopItem] at hres
  | some rr =>
    have hres0 := hres
    simp only [resolveLoopItem] at hres
    refine ⟨rr, rfl, ?_⟩
    by_cases ht : rr.refType = "title"
    · rw [if_pos ht] at hres
      cases hm : mapGet byId rr.refId with
      | none => rw [hm] at hres; exact absurd hres (by simp)
      | some ent => exact ⟨Or.inl ht, ent, rfl, hres0⟩
    · by_cases he : rr.refType = "episode"
      · rw [if_neg ht, if_pos he] at hres
        cases hm : mapGet byId rr.refId with
        | none => rw [hm] at hres; exact absurd hres (by simp)
        | some ent => exact ⟨Or.inr he, ent, rfl, hres0⟩
      · rw [if_neg ht, if_neg he] at hres
        exact absurd hres (by simp)

theorem resolveLoopItem_members_witness :
    itemT1 ∈ [some refT1].filterMap (resolveLoopItem idxEx) ∧
    ∃ r ∈ [some refT1], ∃ rr, r = some rr ∧
      (rr.refType = "title" ∨ rr.refType = "episode") ∧
      ∃ ent, mapGet idxEx rr.refId = some ent ∧ resolveLoopItem idxEx r = some itemT1 :=
  ⟨by decide, resolveLoopItem_members idxEx [some refT1] itemT1 (by decide)⟩

/-- C8 counterexample: on the idle state with an empty queue, a due and
playable sponsored ad still triggers an ad break, so advance is not a
no-op there: playingAd flips to true and lastAdAt is stamped. -/
theorem playNextLoop_idle_ad_counterexample :
    stIdle.queue = [] ∧ stIdle.playingAd = false ∧ stIdle.lastAdAt = 0 ∧
    (playNextLoop cAdOnly 1000000000 0 (fun i => i) stIdle).playingAd = true ∧
    (playNextLoop cAdOnly 1000000000 0 (fun i => i) stIdle).lastAdAt = 1000000000 := by
  have hsp : shouldPlayAd cAdOnly stIdle.lastAdAt 1000000000 = true := by
    unfold shouldPlayAd cAdOnly stIdle
    norm_num
  have hab : adBreakTaken cAdOnly 1000000000 0 stIdle = true := by
    unfold adBreakTaken
    rw [hsp]
    have hpick : pickLoopAd cAdOnly 0 =
        some { kind := "ad", label := "Ad", durationSec := 10, playbackId := "ad1"
               mediaUrl := "", clickUrl := "" } := by
      decide
    rw [hpick]
    rfl
  rw [playNextLoop_break hab]
  exact ⟨rfl, rfl, rfl, rfl, rfl⟩

/-- C8 amended: on an empty queue, advance never touches the queue, the
index or the shuffle flag; when no ad break fires it only forces
playingAd to false, and when a due, playable ad exists it enters the ad
break, setting playingAd and stamping lastAdAt, so the call is not always
a complete no-op. -/
theorem playNextLoop_empty_queue (c : Catalog) (nowMs : ℚ) (adK : Nat) (g : Nat → Nat)
    (st : LoopState) (h : st.queue = []) :
    (playNextLoop c nowMs adK g st).queue = [] ∧
    (playNextLoop c nowMs adK g st).index = st.index ∧
    (playNextLoop c nowMs adK g st).shuffle = st.shuffle ∧
    (adBreakTaken c nowMs adK st = false →
      playNextLoop c nowMs adK g st = { st with playingAd := false }) ∧
    (adBreakTaken c nowMs adK st = true →
      playNextLoop c nowMs adK g st = { st with playingAd := true, lastAdAt := nowMs }) := by
  cases hab : adBreakTaken c nowMs adK st with
  | true =>
    rw [playNextLoop_break hab]
    exact ⟨h, rfl, rfl, fun hcontra => by simp at hcontra, fun _ => rfl⟩
  | false =>
    rw [playNextLoop_no_break hab]
    have hres : (nextLoopItem g { st with playingAd := false }).1 =
        { st with playingAd := false } := by
      unfold nextLoopItem
      rw [if_pos (show ({ st with playingAd := false } : LoopState).queue.length = 0 from by
        simp [h])]
    rw [hres]
    exact ⟨h, rfl, rfl, fun _ => rfl, fun hcontra => by simp at hcontra⟩

theorem playNextLoop_empty_queue_witness :
    stIdle.queue = [] ∧
    ((playNextLoop cNoLoop 0 0 (fun i => i) stIdle).queue = [] ∧
      (playNextLoop cNoLoop 0 0 (fun i => i) stIdle).index = stIdle.index ∧
      (playNextLoop cNoLoop 0 0 (fun i => i) stIdle).shuffle = stIdle.shuffle ∧
      (adBreakTaken cNoLoop 0 0 stIdle = false →
        playNextLoop cNoLoop 0 0 (fun i => i) stIdle = { stIdle with playingAd := false }) ∧
      (adBreakTaken cNoLoop 0 0 stIdle = true →
        playNextLoop cNoLoop 0 0 (fun i => i) stIdle =
          { stIdle with playingAd := true, lastAdAt := 0 })) :=
  ⟨rfl, playNextLoop_empty_queue cNoLoop 0 0 (fun i => i) stIdle rfl⟩

/-! Decimal digit strings: digit-ness and injectivity of natDigits. -/

theorem digitChar_isDigit (d : Nat) : (digitChar d).isDigit = true := by
  rcases d with _|_|_|_|_|_|_|_|_|_|d <;> rfl

theorem digitChar_toNat (d : Nat) (h : d < 10) : (digitChar d).toNat = 48 + d := by
  interval_cases d <;> decide

theorem natDigitsAux_isDigit : ∀ (f n : Nat), ∀ c ∈ natDigitsAux f n, c.isDigit = true := by
  intro f
  induction f with
  | zero => intro n c hc; simp [natDigitsAux] at hc
  | succ f ih =>
    intro n c hc
    unfold natDigitsAux at hc
    split at hc
    · rw [List.mem_singleton] at hc
      rw [hc]
      exact digitChar_isDigit n
    · rw [List.mem_append, List.mem_singleton] at hc
      rcases hc with hc | hc
      · exact ih (n / 10) c hc
      · rw [hc]
        exact digitChar_isDigit (n % 10)

theorem natDigits_isDigit (n : Nat) : ∀ c ∈ natDigits n, c.isDigit = true :=
  natDigitsAux_isDigit (n + 1) n

theorem digitsVal_append_single (l : List Char) (c : Char) :
    digitsVal (l ++ [c]) = 10 * digitsVal l + (c.toNat - 48) := by
  unfold digitsVal
  rw [List.foldl_append]
  rfl

theorem natDigitsAux_val : ∀ (f n : Nat), n < 10 ^ f → digitsVal (natDigitsAux f n) = n := by
  intro f
  induction f with
  | zero => intro n h; simp at h; simp [h, natDigitsAux, digitsVal]
  | succ f ih =>
    intro n h
    unfold natDigitsAux
    split
    · rename_i h10
      unfold digitsVal
      simp only [List.foldl_cons, List.foldl_nil]
      rw [digitChar_toNat n h10]
      omega
    · rename_i h10
      rw [digitsVal_append_single]
      rw [ih (n / 10) (by rw [Nat.div_lt_iff_lt_mul (by omega)]; rw [pow_succ] at h; omega)]
      rw [digitChar_toNat (n % 10) (Nat.mod_lt n (by omega))]
      omega

theorem natDigits_val (n : Nat) : digitsVal (natDigits n) = n := by
  apply natDigitsAux_val
  calc n < 10 ^ n := Nat.lt_pow_self (by omega) n
    _ ≤ 10 ^ (n + 1) := Nat.pow_le_pow_right (by omega) (by omega)

theorem natDigits_inj {m n : Nat} (h : natDigits m = natDigits n) : m = n := by
  have hv := congrArg digitsVal h
  rwa [natDigits_val, natDigits_val] at hv

theorem digit_sep_inj {sep : Char} (hsep : sep.isDigit = false) :
    ∀ (b1 : List Char), (∀ c ∈ b1, c.isDigit = true) →
      ∀ (b2 r1 r2 : List Char), (∀ c ∈ b2, c.isDigit = true) →
        b1 ++ sep :: r1 = b2 ++ sep :: r2 → b1 = b2 ∧ r1 = r2 := by
  intro b1
  induction b1 with
  | nil =>
    intro _ b2 r1 r2 h2 he
    cases b2 with
    | nil => simpa using he
    | cons c cs =>
      rw [List.nil_append, List.cons_append] at he
      injection he with h1 _
      exfalso
      have hc := h2 c (List.mem_cons_self c cs)
      rw [← h1, hsep] at hc
      exact Bool.false_ne_true hc
  | cons a as ih =>
    intro h1 b2 r1 r2 h2 he
    cases b2 with
    | nil =>
      rw [List.nil_append, List.cons_append] at he
      injection he with ha _
      exfalso
      have hc := h1 a (List.mem_cons_self a as)
      rw [ha, hsep] at hc
      exact Bool.false_ne_true hc
    | cons b bs =>
      rw [List.cons_append, List.cons_append] at he
      injection he with hab htail
      obtain ⟨hbs, hr⟩ := ih (fun c hc => h1 c (List.mem_cons_of_mem a hc)) bs r1 r2
        (fun c hc => h2 c (List.mem_cons_of_mem b hc)) htail
      exact ⟨by rw [hab, hbs], hr⟩

theorem derivedIdL_reverse (tid : List Char) (si ei : Nat) :
    (derivedIdL tid si ei).reverse =
      (natDigits (ei + 1)).reverse ++
        ('e' :: ((natDigits (si + 1)).reverse ++ ('s' :: ('_' :: tid.reverse)))) := by
  unfold derivedIdL
  simp [List.reverse_append, List.reverse_cons, List.append_assoc]

theorem derivedIdL_inj {t1 t2 : List Char} {s1 e1 s2 e2 : Nat}
    (h : derivedIdL t1 s1 e1 = derivedIdL t2 s2 e2) : t1 = t2 ∧ s1 = s2 ∧ e1 = e2 := by
  have hrev := congrArg List.reverse h
  rw [derivedIdL_reverse, derivedIdL_reverse] at hrev
  have hdig1 : ∀ c ∈ (natDigits (e1 + 1)).reverse, c.isDigit = true := by
    intro c hc
    exact natDigits_isDigit (e1 + 1) c (List.mem_reverse.mp hc)
  have hdig2 : ∀ c ∈ (natDigits (e2 + 1)).reverse, c.isDigit = true := by
    intro c hc
    exact natDigits_isDigit (e2 + 1) c (List.mem_reverse.mp hc)
  obtain ⟨hB, hrest⟩ := digit_sep_inj (show ('e').isDigit = false from by decide)
    (natDigits (e1 + 1)).reverse hdig1 (natDigits (e2 + 1)).reverse _ _ hdig2 hrev
  have hdig3 : ∀ c ∈ (natDigits (s1 + 1)).reverse, c.isDigit = true := by
    intro c hc
    exact natDigits_isDigit (s1 + 1) c (List.mem_reverse.mp hc)
  have hdig4 : ∀ c ∈ (natDigits (s2 + 1)).reverse, c.isDigit = true := by
    intro c hc
    exact natDigits_isDigit (s2 + 1) c (List.mem_reverse.mp hc)
  obtain ⟨hA, hrest2⟩ := digit_sep_inj (show ('s').isDigit = false from by decide)
    (natDigits (s1 + 1)).reverse hdig3 (natDigits (s2 + 1)).reverse _ _ hdig4 hrest
  injection hrest2 with _ ht
  refine ⟨?_, ?_, ?_⟩
  · have := congrArg List.reverse ht
    simpa using this
  · have hA' : natDigits (s1 + 1) = natDigits (s2 + 1) := by
      have := congrArg List.reverse hA
      simpa using this
    have := natDigits_inj hA'
    omega
  · have hB' : natDigits (e1 + 1) = natDigits (e2 + 1) := by
      have := congrArg List.reverse hB
      simpa using this
    have := natDigits_inj hB'
    omega

theorem derivedId_inj {t1 t2 : String} {s1 e1 s2 e2 : Nat}
    (h : derivedId t1 s1 e1 = derivedId t2 s2 e2) : t1 = t2 ∧ s1 = s2 ∧ e1 = e2 := by
  unfold derivedId at h
  have hdata : derivedIdL t1.data s1 e1 = derivedIdL t2.data s2 e2 := by
    injection h
  obtain ⟨ht, hs, he⟩ := derivedIdL_inj hdata
  refine ⟨?_, hs, he⟩
  cases t1
  cases t2
  exact congrArg String.mk (by simpa using ht)

theorem derivedId_ne_empty (tid : String) (si ei : Nat) : derivedId tid si ei ≠ "" := by
  unfold derivedId
  intro h
  have hdata : derivedIdL tid.data si ei = [] := by
    simpa using congrArg String.data h
  unfold derivedIdL at hdata
  simp at hdata

/-! Uniqueness of the derived episode ids. -/

theorem mem_derivedIdsEps {tid : String} {si : Nat} :
    ∀ {ei0 : Nat} {eps : List Episode} {x : String}, x ∈ derivedIdsEps tid si ei0 eps →
      ∃ ei, ei0 ≤ ei ∧ x = derivedId tid si ei := by
  intro ei0 eps
  induction eps generalizing ei0 with
  | nil => intro x hx; simp [derivedIdsEps] at hx
  | cons ep rest ih =>
    intro x hx
    unfold derivedIdsEps at hx
    rw [List.mem_append] at hx
    rcases hx with hx | hx
    · rw [List.mem_ite_nil_right] at hx
      exact ⟨ei0, le_refl ei0, by rw [← List.mem_singleton]; exact hx.2⟩
    · obtain ⟨ei, hle, hx⟩ := ih hx
      exact ⟨ei, by omega, hx⟩

theorem nodup_derivedIdsEps (tid : String) (si : Nat) :
    ∀ (ei0 : Nat) (eps : List Episode), (derivedIdsEps tid si ei0 eps).Nodup := by
  intro ei0 eps
  induction eps generalizing ei0 with
  | nil => exact List.nodup_nil
  | cons ep rest ih =>
    unfold derivedIdsEps
    split
    · rw [List.singleton_append, List.nodup_cons]
      refine ⟨?_, ih (ei0 + 1)⟩
      intro hmem
      obtain ⟨ei, hle, heq⟩ := mem_derivedIdsEps hmem
      obtain ⟨-, -, he⟩ := derivedId_inj heq
      omega
    · rw [List.nil_append]
      exact ih (ei0 + 1)

theorem mem_derivedIdsSeasons {tid : String} :
    ∀ {si0 : Nat} {ss : List Season} {x : String}, x ∈ derivedIdsSeasons tid si0 ss →
      ∃ si ei, si0 ≤ si ∧ x = derivedId tid si ei := by
  intro si0 ss
  induction ss generalizing si0 with
  | nil => intro x hx; simp [derivedIdsSeasons] at hx
  | cons s rest ih =>
    intro x hx
    unfold derivedIdsSeasons at hx
    rw [List.mem_append] at hx
    rcases hx with hx | hx
    · obtain ⟨ei, -, hx⟩ := mem_derivedIdsEps hx
      exact ⟨si0, ei, le_refl si0, hx⟩
    · obtain ⟨si, ei, hle, hx⟩ := ih hx
      exact ⟨si, ei, by omega, hx⟩

theorem nodup_derivedIdsSeasons (tid : String) :
    ∀ (si0 : Nat) (ss : List Season), (derivedIdsSeasons tid si0 ss).Nodup := by
  intro si0 ss
  induction ss generalizing si0 with
  | nil => exact List.nodup_nil
  | cons s rest ih =>
    unfold derivedIdsSeasons
    refine List.Nodup.append (nodup_derivedIdsEps tid si0 0 s.episodes) (ih (si0 + 1)) ?_
    intro x hx1 hx2
    obtain ⟨ei, -, heq1⟩ := mem_derivedIdsEps hx1
    obtain ⟨si, ei2, hle, heq2⟩ := mem_derivedIdsSeasons hx2
    rw [heq1] at heq2
    obtain ⟨-, hs, -⟩ := derivedId_inj heq2
    omega

theorem mem_derivedIdsTitle {t : Title} {x : String} (hx : x ∈ derivedIdsTitle t) :
    ∃ si ei, x = derivedId t.id si ei := by
  unfold derivedIdsTitle at hx
  split at hx
  · obtain ⟨si, ei, -, hx⟩ := mem_derivedIdsSeasons hx
    exact ⟨si, ei, hx⟩
  · simp at hx

theorem nodup_derivedIdsTitle (t : Title) : (derivedIdsTitle t).Nodup := by
  unfold derivedIdsTitle
  split
  · exact nodup_derivedIdsSeasons t.id 0 t.seasons
  · exact List.nodup_nil

theorem nodup_derivedIds (c : Catalog) (H1 : ((selTitles c).map Title.id).Nodup) :
    (derivedIds c).Nodup := by
  unfold derivedIds
  rw [List.nodup_flatMap]
  refine ⟨fun t _ => nodup_derivedIdsTitle t, ?_⟩
  have hpw := List.pairwise_map.mp H1
  refine hpw.imp ?_
  intro a b hne x hxa hxb
  obtain ⟨si1, ei1, hx1⟩ := mem_derivedIdsTitle hxa
  obtain ⟨si2, ei2, hx2⟩ := mem_derivedIdsTitle hxb
  rw [hx1] at hx2
  exact hne (derivedId_inj hx2).1

/-! Association-list lemmas for the entity index. -/

theorem mapSet_not_mem (m : EntityIndex) (k : String) (v : Entity)
    (h : ∀ p ∈ m, p.1 ≠ k) : mapSet m k v = m ++ [(k, v)] := by
  unfold mapSet
  rw [if_neg]
  intro hany
  rw [List.any_eq_true] at hany
  obtain ⟨p, hp, hpk⟩ := hany
  exact h p hp (by simpa using hpk)

theorem mapGet_of_mem_nodup : ∀ (ps : List (String × Entity)),
    (ps.map Prod.fst).Nodup → ∀ p ∈ ps, mapGet ps p.1 = some p.2 := by
  intro ps
  induction ps with
  | nil => intro _ p hp; simp at hp
  | cons q qs ih =>
    intro hnd p hp
    rw [List.map_cons, List.nodup_cons] at hnd
    rcases List.mem_cons.mp hp with rfl | hp'
    · unfold mapGet
      rw [List.find?_cons_of_pos qs (by simp)]
      rfl
    · have hq : ¬((fun r : String × Entity => r.1 == p.1) q = true) := by
        simp only [beq_iff_eq]
        intro he
        exact hnd.1 (he ▸ List.mem_map_of_mem Prod.fst hp')
      unfold mapGet
      rw [List.find?_cons_of_neg qs hq]
      exact ih hnd.2 p hp'

theorem foldl_mapSet_eq_append : ∀ (ps : List (String × Entity)) (m : EntityIndex),
    (∀ q ∈ m, ∀ p ∈ ps, q.1 ≠ p.1) → (ps.map Prod.fst).Nodup →
    ps.foldl (fun m p => mapSet m p.1 p.2) m = m ++ ps := by
  intro ps
  induction ps with
  | nil => intro m _ _; simp
  | cons p ps ih =>
    intro m hdisj hnd
    rw [List.map_cons, List.nodup_cons] at hnd
    rw [List.foldl_cons]
    have hset : mapSet m p.1 p.2 = m ++ [p] :=
      mapSet_not_mem m p.1 p.2 (fun q hq => hdisj q hq p (List.mem_cons_self p ps))
    rw [hset]
    rw [ih (m ++ [p]) ?_ hnd.2]
    · rw [List.append_assoc]
      rfl
    · intro q hq p' hp'
      rcases List.mem_append.mp hq with hq | hq
      · exact hdisj q hq p' (List.mem_cons_of_mem p hp')
      · rw [List.mem_singleton] at hq
        subst hq
        intro he
        exact hnd.1 (he ▸ List.mem_map_of_mem Prod.fst hp')

theorem insertEpisodes_eq (eps : List Episode) (m : EntityIndex) :
    insertEpisodes m eps =
      (eps.map (fun ep => (epKey ep, Entity.episode ep))).foldl
        (fun m p => mapSet m p.1 p.2) m := by
  unfold insertEpisodes
  rw [List.foldl_map]

theorem insertSeasons_eq : ∀ (ss : List Season) (m : EntityIndex),
    insertSeasons m ss =
      (ss.flatMap (fun s => s.episodes.map (fun ep => (epKey ep, Entity.episode ep)))).foldl
        (fun m p => mapSet m p.1 p.2) m := by
  intro ss
  induction ss with
  | nil => intro m; rfl
  | cons s rest ih =>
    intro m
    rw [List.flatMap_cons, List.foldl_append]
    show insertSeasons (insertEpisodes m s.episodes) rest = _
    rw [ih, insertEpisodes_eq]

theorem insertTitle_eq (t : Title) (m : EntityIndex) :
    insertTitle m t = (titleInsertions t).foldl (fun m p => mapSet m p.1 p.2) m := by
  unfold insertTitle titleInsertions
  split
  · rw [List.foldl_cons]
    exact insertSeasons_eq t.seasons (mapSet m t.id (Entity.title t))
  · rw [List.foldl_cons, List.foldl_nil]

theorem foldl_insertTitle_eq : ∀ (ts : List Title) (m : EntityIndex),
    ts.foldl insertTitle m =
      (ts.flatMap titleInsertions).foldl (fun m p => mapSet m p.1 p.2) m := by
  intro ts
  induction ts with
  | nil => intro m; rfl
  | cons t rest ih =>
    intro m
    rw [List.flatMap_cons, List.foldl_append, List.foldl_cons]
    rw [ih, insertTitle_eq]

theorem normalizeCatalog_byId_eq (c : Catalog) (Hk : (keysOf c).Nodup) :
    (normalizeCatalog c).2 = insertionsOf c := by
  show ((selTitles c).map normTitle).foldl insertTitle [] = _
  rw [foldl_insertTitle_eq]
  show (insertionsOf c).foldl (fun m p => mapSet m p.1 p.2) [] = insertionsOf c
  rw [foldl_mapSet_eq_append (insertionsOf c) [] (by simp) Hk]
  rw [List.nil_append]

/-! Position-wise description of normalization, and idempotence. -/

theorem normEpisodes_getElem? (tid : String) (si : Nat) :
    ∀ (eps : List Episode) (ei0 k : Nat),
      (normEpisodes tid si ei0 eps)[k]? = (eps[k]?).map (normEpisode tid si (ei0 + k)) := by
  intro eps
  induction eps with
  | nil => intro ei0 k; simp [normEpisodes]
  | cons ep rest ih =>
    intro ei0 k
    cases k with
    | zero => simp [normEpisodes]
    | succ k =>
      rw [show normEpisodes tid si ei0 (ep :: rest) =
          normEpisode tid si ei0 ep :: normEpisodes tid si (ei0 + 1) rest from rfl]
      rw [List.getElem?_cons_succ, List.getElem?_cons_succ]
      rw [ih (ei0 + 1) k]
      have he : ei0 + 1 + k = ei0 + (k + 1) := by omega
      rw [he]

theorem normSeasons_getElem? (tid : String) :
    ∀ (ss : List Season) (si0 k : Nat),
      (normSeasons tid si0 ss)[k]? =
        (ss[k]?).map (fun s =>
          { s with episodes := normEpisodes tid (si0 + k) 0 s.episodes }) := by
  intro ss
  induction ss with
  | nil => intro si0 k; simp [normSeasons]
  | cons s rest ih =>
    intro si0 k
    cases k with
    | zero => simp [normSeasons]
    | succ k =>
      rw [show normSeasons tid si0 (s :: rest) =
          { s with episodes := normEpisodes tid si0 0 s.episodes } ::
            normSeasons tid (si0 + 1) rest from rfl]
      rw [List.getElem?_cons_succ, List.getElem?_cons_succ]
      rw [ih (si0 + 1) k]
      have he : si0 + 1 + k = si0 + (k + 1) := by omega
      rw [he]

theorem normEpisode_fields (tid : String) (si ei : Nat) (ep : Episode) :
    (normEpisode tid si ei ep).id =
      some (if isFalsyStr ep.id then derivedId tid si ei else ep.id.getD "") ∧
    (normEpisode tid si ei ep).seriesId = some tid ∧
    (normEpisode tid si ei ep).seasonIndex = some si ∧
    (normEpisode tid si ei ep).epIndex = some ei := by
  refine ⟨?_, rfl, rfl, rfl⟩
  unfold normEpisode
  cases hid : ep.id with
  | none => simp [isFalsyStr]
  | some s =>
    by_cases hs : s = ""
    · simp [isFalsyStr, hid, hs]
    · simp [isFalsyStr, hid, hs]

theorem normEpisode_idem (tid : String) (si ei : Nat) (ep : Episode) :
    normEpisode tid si ei (normEpisode tid si ei ep) = normEpisode tid si ei ep := by
  unfold normEpisode
  cases hid : ep.id with
  | none =>
    simp only [isFalsyStr]
    have hne := derivedId_ne_empty tid si ei
    simp [hne]
  | some s =>
    by_cases hs : s = ""
    · simp only [isFalsyStr, hs]
      have hne := derivedId_ne_empty tid si ei
      simp [hne]
    · simp only [isFalsyStr]
      simp [hs]

theorem normEpisodes_idem (tid : String) (si : Nat) :
    ∀ (eps : List Episode) (ei0 : Nat),
      normEpisodes tid si ei0 (normEpisodes tid si ei0 eps) = normEpisodes tid si ei0 eps := by
  intro eps
  induction eps with
  | nil => intro ei0; rfl
  | cons ep rest ih =>
    intro ei0
    have h1 : normEpisodes tid si ei0 (ep :: rest) =
        normEpisode tid si ei0 ep :: normEpisodes tid si (ei0 + 1) rest := rfl
    rw [h1]
    have h2 : normEpisodes tid si ei0
          (normEpisode tid si ei0 ep :: normEpisodes tid si (ei0 + 1) rest) =
        normEpisode tid si ei0 (normEpisode tid si ei0 ep) ::
          normEpisodes tid si (ei0 + 1) (normEpisodes tid si (ei0 + 1) rest) := rfl
    rw [h2, normEpisode_idem, ih (ei0 + 1)]

theorem normSeasons_idem (tid : String) :
    ∀ (ss : List Season) (si0 : Nat),
      normSeasons tid si0 (normSeasons tid si0 ss) = normSeasons tid si0 ss := by
  intro ss
  induction ss with
  | nil => intro si0; rfl
  | cons s rest ih =>
    intro si0
    have h1 : normSeasons tid si0 (s :: rest) =
        { s with episodes := normEpisodes tid si0 0 s.episodes } ::
          normSeasons tid (si0 + 1) rest := rfl
    rw [h1]
    have h2 : normSeasons tid si0
          ({ s with episodes := normEpisodes tid si0 0 s.episodes } ::
            normSeasons tid (si0 + 1) rest) =
        { s with episodes := normEpisodes tid si0 0 (normEpisodes tid si0 0 s.episodes) } ::
          normSeasons tid (si0 + 1) (normSeasons tid (si0 + 1) rest) := rfl
    rw [h2, normEpisodes_idem, ih (si0 + 1)]

theorem normTitle_idem (t : Title) : normTitle (normTitle t) = normTitle t := by
  unfold normTitle
  by_cases ht : t.type = "series"
  · rw [if_pos ht]
    rw [if_pos (show ({ t with seasons := normSeasons t.id 0 t.seasons } : Title).type =
      "series" from ht)]
    show ({ t with seasons := normSeasons t.id 0 (normSeasons t.id 0 t.seasons) } : Title) = _
    rw [normSeasons_idem]
  · rw [if_neg ht, if_neg ht]

theorem selTitles_afterNorm (c : Catalog) :
    selTitles (afterNorm c) = (selTitles c).map normTitle := by
  obtain ⟨ct, cp, cl⟩ := c
  cases ct with
  | some ts => rfl
  | none =>
    cases cp with
    | some ts => rfl
    | none => rfl

theorem normalizeCatalog_idem (c : Catalog) :
    normalizeCatalog (afterNorm c) = normalizeCatalog c := by
  unfold normalizeCatalog
  rw [selTitles_afterNorm, List.map_map]
  simp only [Function.comp_def]
  rw [List.map_congr_left (fun t _ => normTitle_idem t)]

/-- C1 counterexample: a catalog holding two series that share the id a,
each with one id-less episode at season 1 episode 1, derives the id
a_s1e1 twice, so derived episode ids are not unique for every catalog
document. -/
theorem normalizeCatalog_dup_ids_counterexample :
    derivedId "a" 0 0 = "a_s1e1" ∧
    derivedIds cDup = ["a_s1e1", "a_s1e1"] ∧
    ¬(derivedIds cDup).Nodup :=
  ⟨by decide, by decide, by decide⟩

/-- C1 amended: provided the selected title ids are pairwise distinct,
normalization assigns each id-less episode the derived id
titleId_s(season+1)e(episode+1) together with the three back-references,
and the derived ids are unique within the catalog; provided additionally
that all inserted keys (title ids and final episode ids) are pairwise
distinct, every Title and Episode is indexed under its id; and
normalizing the mutated document a second time yields the same titles and
the same index. -/
theorem normalizeCatalog_spec (c : Catalog) (H1 : ((selTitles c).map Title.id).Nodup) :
    (derivedIds c).Nodup ∧
    (∀ t ∈ selTitles c, t.type = "series" →
      ∀ si s, t.seasons[si]? = some s →
        ∀ ei ep, s.episodes[ei]? = some ep →
          ∃ s', (normTitle t).seasons[si]? = some s' ∧
            s'.episodes[ei]? = some (normEpisode t.id si ei ep) ∧
            (normEpisode t.id si ei ep).id =
              some (if isFalsyStr ep.id then derivedId t.id si ei else ep.id.getD "") ∧
            (normEpisode t.id si ei ep).seriesId = some t.id ∧
            (normEpisode t.id si ei ep).seasonIndex = some si ∧
            (normEpisode t.id si ei ep).epIndex = some ei) ∧
    ((keysOf c).Nodup →
      (∀ t ∈ (normalizeCatalog c).1,
        mapGet (normalizeCatalog c).2 t.id = some (Entity.title t)) ∧
      (∀ t ∈ (normalizeCatalog c).1, t.type = "series" →
        ∀ s ∈ t.seasons, ∀ ep ∈ s.episodes,
          mapGet (normalizeCatalog c).2 (epKey ep) = some (Entity.episode ep))) ∧
    normalizeCatalog (afterNorm c) = normalizeCatalog c := by
  refine ⟨nodup_derivedIds c H1, ?_, ?_, normalizeCatalog_idem c⟩
  · intro t ht htype si s hs ei ep hep
    refine ⟨{ s with episodes := normEpisodes t.id si 0 s.episodes }, ?_, ?_,
      normEpisode_fields t.id si ei ep⟩
    · unfold normTitle
      rw [if_pos htype]
      show (normSeasons t.id 0 t.seasons)[si]? = _
      rw [normSeasons_getElem? t.id t.seasons 0 si, hs]
      simp
    · show (normEpisodes t.id si 0 s.episodes)[ei]? = _
      rw [normEpisodes_getElem? t.id si s.episodes 0 ei, hep]
      simp
  · intro Hk
    constructor
    · intro t ht
      have hmem : (t.id, Entity.title t) ∈ insertionsOf c := by
        unfold insertionsOf
        rw [List.mem_flatMap]
        exact ⟨t, ht, by unfold titleInsertions; exact List.mem_cons_self _ _⟩
      rw [normalizeCatalog_byId_eq c Hk]
      exact mapGet_of_mem_nodup (insertionsOf c) Hk (t.id, Entity.title t) hmem
    · intro t ht htype s hs ep hep
      have hmem : (epKey ep, Entity.episode ep) ∈ insertionsOf c := by
        unfold insertionsOf
        rw [List.mem_flatMap]
        refine ⟨t, ht, ?_⟩
        unfold titleInsertions
        apply List.mem_cons_of_mem
        rw [if_pos htype, List.mem_flatMap]
        exact ⟨s, hs, List.mem_map_of_mem _ hep⟩
      rw [normalizeCatalog_byId_eq c Hk]
      exact mapGet_of_mem_nodup (insertionsOf c) Hk (epKey ep, Entity.episode ep) hmem

theorem normalizeCatalog_spec_witness :
    ((selTitles cS1).map Title.id).Nodup ∧ (keysOf cS1).Nodup ∧
    derivedIds cS1 = ["s1_s1e1", "s1_s1e2"] ∧
    (derivedIds cS1).Nodup ∧
    ((∀ t ∈ (normalizeCatalog cS1).1,
        mapGet (normalizeCatalog cS1).2 t.id = some (Entity.title t)) ∧
      (∀ t ∈ (normalizeCatalog cS1).1, t.type = "series" →
        ∀ s ∈ t.seasons, ∀ ep ∈ s.episodes,
          mapGet (normalizeCatalog cS1).2 (epKey ep) = some (Entity.episode ep))) ∧
    normalizeCatalog (afterNorm cS1) = normalizeCatalog cS1 :=
  ⟨by decide, by decide, by decide,
    (normalizeCatalog_spec cS1 (by decide)).1,
    (normalizeCatalog_spec cS1 (by decide)).2.2.1 (by decide),
    (normalizeCatalog_spec cS1 (by decide)).2.2.2⟩
